import Mathlib

/-!
Verification development for the EagleJS DOM-manipulation library
(src/src/eaglejs.esm.ts, typed variant 0.6.1, and the legacy pre-TypeScript
variant in src/unnamed/part_000, 0.5.2).

The host DOM is modelled as a store of nodes indexed by numeric ids
(reference identity), and an EagleJS collection is a list of heterogeneous
items. Host collaborators that the library only consumes (the HTML parser,
selector matching) are given small concrete models; every method of the
library itself is translated line by line from the source.
-/

namespace EagleJS

/-- An opaque host item reference. A `node id` is a DOM node living in the
store; `window` is a window-like object (it has addEventListener but no
nodeType); `plain id` is an object without addEventListener (not a DOMItem).
Reference identity is value equality of this type. -/
inductive Item where
  | node (id : Nat)
  | window
  | plain (id : Nat)
deriving DecidableEq

/-- Translation of `EagleJS.isDOMItem` (eaglejs.esm.ts lines 89-91 and the
legacy equivalent): true iff the value is truthy and exposes
addEventListener. -/
def isDOMItem : Item → Bool
  | .node _ => true
  | .window => true
  | .plain _ => false

/-- Translation of `EagleJS.prototype.push` (eaglejs.esm.ts lines 817-821):
`super.push(...items.filter((item) => EagleJS.isDOMItem(item) &&
!this.includes(item)))`. The filter is fully evaluated against the
pre-push state of the collection before the append happens. -/
def push (c : List Item) (items : List Item) : List Item :=
  c ++ items.filter (fun x => isDOMItem x && !(c.contains x))

/-- Translation of `EagleJS.prototype.unshift` (eaglejs.esm.ts lines
1097-1101): same filter as push, prepending instead of appending. -/
def unshift (c : List Item) (items : List Item) : List Item :=
  items.filter (fun x => isDOMItem x && !(c.contains x)) ++ c

/-- Data carried by one host DOM node. `nodeType` follows the DOM numeric
tags (1 element, 3 text, 9 document, 11 fragment...). `innerHTMLv` is the
markup last assigned to innerHTML; `text` models textContent; `childIds`
and `parentId` encode the tree. -/
structure NodeData where
  nodeType : Nat := 1
  tag : String := ""
  text : String := ""
  attrs : List (String × String) := []
  classes : List String := []
  dataset : List (String × String) := []
  innerHTMLv : String := ""
  childIds : List Nat := []
  parentId : Option Nat := none
  readyState : String := "complete"
deriving DecidableEq

/-- The host document heap: the next fresh node id, the id of the global
`document` object, and the node store (an association list; the earliest
entry for an id wins on lookup). -/
structure Dom where
  nextId : Nat := 0
  documentId : Nat := 0
  store : List (Nat × NodeData) := []
deriving DecidableEq

/-- Lookup in a raw store list: the earliest entry for the id wins. -/
def storeGet : List (Nat × NodeData) → Nat → Option NodeData
  | [], _ => none
  | p :: rest, i => if p.fst = i then some p.snd else storeGet rest i

def Dom.get (d : Dom) (i : Nat) : Option NodeData :=
  storeGet d.store i

/-- Replace the data of node `i` by applying `f` (in-place object
mutation in the host). -/
def Dom.modify (d : Dom) (i : Nat) (f : NodeData → NodeData) : Dom :=
  { d with store := d.store.map (fun p => if p.fst == i then (i, f p.snd) else p) }

/-- Allocate a fresh node (host object creation such as
document.createTextNode or cloneNode). -/
def Dom.alloc (d : Dom) (nd : NodeData) : Nat × Dom :=
  (d.nextId, { d with nextId := d.nextId + 1, store := d.store ++ [(d.nextId, nd)] })

/-- Model of `document.createTextNode(value)`. -/
def createTextNode (d : Dom) (s : String) : Nat × Dom :=
  d.alloc { nodeType := 3, text := s }

/-- The node id an item refers to (0 for non-node items; every use is
guarded by a capability check that only nodes pass). -/
def idOf : Item → Nat
  | .node i => i
  | _ => 0

/-- The nodeType of an item, when it is a node present in the store. -/
def nodeTypeOf (d : Dom) (it : Item) : Option Nat :=
  match it with
  | .node i => (d.get i).map (·.nodeType)
  | _ => none

def childIdsOf (d : Dom) (i : Nat) : List Nat :=
  ((d.get i).map (·.childIds)).getD []

def parentIdOf (d : Dom) (i : Nat) : Option Nat :=
  (d.get i).bind (·.parentId)

def textOf (d : Dom) (i : Nat) : Option String :=
  (d.get i).map (·.text)

def innerHTMLOf (d : Dom) (i : Nat) : Option String :=
  (d.get i).map (·.innerHTMLv)

/-- Detach a node from its current parent, if any (the host tree does this
implicitly when a node is inserted elsewhere). -/
def removeFromOldParent (d : Dom) (childId : Nat) : Dom :=
  match parentIdOf d childId with
  | some p =>
      (d.modify p (fun pd => { pd with childIds := pd.childIds.erase childId })).modify
        childId (fun cd => { cd with parentId := none })
  | none => d

/-- Insert `x` immediately before the first occurrence of `r` in the list. -/
def insertBeforeElem : List Nat → Nat → Nat → List Nat
  | [], x, _ => [x]
  | y :: ys, x, r => if y = r then x :: y :: ys else y :: insertBeforeElem ys x r

/-- Insert `x` into a child list before the reference child (DOM
`insertBefore` semantics: a null reference appends at the end). -/
def insertIntoChildList (l : List Nat) (x : Nat) (ref : Option Nat) : List Nat :=
  match ref with
  | none => l ++ [x]
  | some r => if l.contains r then insertBeforeElem l x r else l ++ [x]

/-- Model of the host `parent.insertBefore(child, ref)` primitive: the child
leaves its old parent, its parent pointer is updated, and it is spliced
into the target child list before `ref`. -/
def domInsertBefore (d : Dom) (parentId : Nat) (childId : Nat) (ref : Option Nat) : Dom :=
  let d1 := removeFromOldParent d childId
  let d2 := d1.modify childId (fun cd => { cd with parentId := some parentId })
  d2.modify parentId (fun pd => { pd with childIds := insertIntoChildList pd.childIds childId ref })

/-- Model of the host `parent.appendChild(child)` primitive. -/
def domAppendChild (d : Dom) (parentId : Nat) (childId : Nat) : Dom :=
  domInsertBefore d parentId childId none

/-- Model of `node.nextSibling`: the entry after `i` in the parent child
list. -/
def nextAfter : List Nat → Nat → Option Nat
  | [], _ => none
  | x :: rest, i => if x = i then rest.head? else nextAfter rest i

def nextSiblingOf (d : Dom) (i : Nat) : Option Nat :=
  match parentIdOf d i with
  | some p => nextAfter (childIdsOf d p) i
  | none => none

def firstChildOf (d : Dom) (i : Nat) : Option Nat :=
  (childIdsOf d i).head?

/-- Model of the host `node.cloneNode(true)` primitive: a deep copy with
fresh ids throughout; fuel bounds the recursion depth (the store size
suffices on any acyclic document). -/
def cloneSub : Nat → Dom → Nat → Nat × Dom
  | 0, d, _ => (0, d)
  | Nat.succ fuel, d, i =>
    match d.get i with
    | none => (0, d)
    | some nd =>
      let (nid, d1) := d.alloc { nd with childIds := [], parentId := none }
      let d2 := nd.childIds.foldl (fun dAcc c =>
        let (cid, dx) := cloneSub fuel dAcc c
        domAppendChild dx nid cid) d1
      (nid, d2)

/-- Model of `node.cloneNode(deep)`. -/
def cloneNode (d : Dom) (i : Nat) (deep : Bool) : Nat × Dom :=
  if deep then cloneSub (d.store.length + 1) d i
  else
    match d.get i with
    | none => (0, d)
    | some nd => d.alloc { nd with childIds := [], parentId := none }

/-! Capability predicates. The typed variant probes structurally
(`'classList' in item` and similar); in the model a structural probe is
decided by the node type, mirroring which host interfaces carry the
member. The legacy variant tests nodeType tags directly. -/

/-- Translation of static `isChildNode` (eaglejs.esm.ts lines 72-75):
truthy, has a truthy nodeType, and the nodeType is one of
Element, Text, CDATA, ProcessingInstruction, Comment, DocumentType. -/
def isChildNode (d : Dom) (it : Item) : Bool :=
  match nodeTypeOf d it with
  | some t => [1, 3, 4, 7, 8, 10].contains t
  | none => false

/-- Structural probe for classList (elements only). -/
def hasClassList (d : Dom) (it : Item) : Bool :=
  nodeTypeOf d it == some 1

/-- Legacy static `isElement` (part_000 lines 639-641): isNode and
nodeType is the Element tag. Identical in force to the structural
classList probe of the typed variant. -/
def isElementLegacy (d : Dom) (it : Item) : Bool :=
  nodeTypeOf d it == some 1

/-- Legacy static `isDocument` (part_000 lines 607-609). -/
def isDocumentLegacy (d : Dom) (it : Item) : Bool :=
  nodeTypeOf d it == some 9

/-- Structural probe for querySelector/querySelectorAll; also the legacy
static `isParentNode` (part_000 lines 900-902): Element, Document or
DocumentFragment. -/
def hasQuerySelector (d : Dom) (it : Item) : Bool :=
  match nodeTypeOf d it with
  | some t => [1, 9, 11].contains t
  | none => false

/-- Structural probe for setAttribute/getAttribute/matches/closest/
innerHTML/dataset (Element interface members). -/
def hasSetAttribute (d : Dom) (it : Item) : Bool :=
  nodeTypeOf d it == some 1

def hasGetAttribute (d : Dom) (it : Item) : Bool :=
  nodeTypeOf d it == some 1

def hasMatches (d : Dom) (it : Item) : Bool :=
  nodeTypeOf d it == some 1

def hasInnerHTML (d : Dom) (it : Item) : Bool :=
  nodeTypeOf d it == some 1

def hasDataset (d : Dom) (it : Item) : Bool :=
  nodeTypeOf d it == some 1

/-- Structural probe for textContent (every node has it). -/
def hasTextContent (d : Dom) (it : Item) : Bool :=
  (nodeTypeOf d it).isSome

/-- Structural probe for readyState (the Document interface). -/
def hasReadyState (d : Dom) (it : Item) : Bool :=
  nodeTypeOf d it == some 9

def readyStateOf (d : Dom) (it : Item) : String :=
  (((d.get (idOf it)).map (·.readyState))).getD ""

/-- Structural probe for the element-children view (Element, Document,
DocumentFragment). -/
def hasChildren (d : Dom) (it : Item) : Bool :=
  match nodeTypeOf d it with
  | some t => [1, 9, 11].contains t
  | none => false

/-- Structural probe for parentNode / cloneNode / childNodes (all nodes). -/
def hasParentNode (d : Dom) (it : Item) : Bool :=
  (nodeTypeOf d it).isSome

def hasCloneNode (d : Dom) (it : Item) : Bool :=
  (nodeTypeOf d it).isSome

/-- Structural probe for nextElementSibling / previousElementSibling
(Element and CharacterData interfaces). -/
def hasElementSibling (d : Dom) (it : Item) : Bool :=
  match nodeTypeOf d it with
  | some t => [1, 3, 4, 7, 8].contains t
  | none => false

/-! Host selector engine model: a selector string matches an element whose
tag equals the selector. This is the inert stand-in for the native
`Element.matches`; the library only forwards to it. -/

def matchesSel (d : Dom) (i : Nat) (sel : String) : Bool :=
  match d.get i with
  | some nd => nd.nodeType == 1 && nd.tag == sel
  | none => false

/-- Pre-order list of all strict descendants of a node (document order),
fuel-bounded by store size. -/
def descendantsFuel : Nat → Dom → Nat → List Nat
  | 0, _, _ => []
  | Nat.succ fuel, d, i =>
      ((childIdsOf d i).map (fun c => c :: descendantsFuel fuel d c)).flatten

def descendants (d : Dom) (i : Nat) : List Nat :=
  descendantsFuel (d.store.length + 1) d i

/-- Model of the host `item.querySelectorAll(sel)` on a single node:
matching descendant elements in document order. -/
def nodeQuerySelectorAll (d : Dom) (i : Nat) (sel : String) : List Item :=
  ((descendants d i).filter (fun n => matchesSel d n sel)).map Item.node

/-- Translation of `EagleJS.prototype.querySelectorAll` (eaglejs.esm.ts
lines 858-866): a fresh collection, one push call per capable member. -/
def querySelectorAllC (d : Dom) (c : List Item) (sel : String) : List Item :=
  c.foldl (fun acc it =>
    if hasQuerySelector d it then push acc (nodeQuerySelectorAll d (idOf it) sel)
    else acc) []

/-- Translation of the string branch of legacy `find` (part_000 lines
466-478): forEach, isParentNode guard, push of querySelectorAll results.
The guard coincides with the structural probe of the typed variant. -/
def findC (d : Dom) (c : List Item) (sel : String) : List Item :=
  c.foldl (fun acc it =>
    if hasQuerySelector d it then push acc (nodeQuerySelectorAll d (idOf it) sel)
    else acc) []

/-! Host HTML parser model. Parsing is inert and produces, for any markup
string, a single fresh element node carrying the markup. The library never
inspects the parse result beyond taking child node lists, so any inert
model is adequate. -/

/-- Model of parsing a markup string into a list of sibling nodes. -/
def parseHTMLNodes (d : Dom) (s : String) : List Nat × Dom :=
  let (nid, d1) := d.alloc { nodeType := 1, tag := "parsed", text := s, innerHTMLv := s }
  ([nid], d1)

/-- Model of the host innerHTML setter: the old children are detached and
replaced by the parse of the assigned markup. -/
def setInnerHTML (d : Dom) (i : Nat) (v : String) : Dom :=
  let old := childIdsOf d i
  let d0 := old.foldl (fun da k => da.modify k (fun nd => { nd with parentId := none })) d
  let (kids, d1) := parseHTMLNodes d0 v
  let d2 := kids.foldl (fun da k => da.modify k (fun nd => { nd with parentId := some i })) d1
  d2.modify i (fun nd => { nd with innerHTMLv := v, childIds := kids })

/-- Model of `new DOMParser().parseFromString(s, 'text/html')` followed by
reading `doc.body.childNodes` (eaglejs.esm.ts lines 46-47): a fresh
document with a body whose children are the parsed nodes; the parsed
child-node ids are returned together with the grown heap. -/
def domParserParseBody (d : Dom) (s : String) : List Nat × Dom :=
  let (kids, d1) := parseHTMLNodes d s
  let (bodyId, d2) := d1.alloc { nodeType := 1, tag := "body", childIds := kids }
  let d3 := kids.foldl (fun da k => da.modify k (fun nd => { nd with parentId := some bodyId })) d2
  let (docId, d4) := d3.alloc { nodeType := 9, childIds := [bodyId] }
  let d5 := d4.modify bodyId (fun nd => { nd with parentId := some docId })
  (kids, d5)

/-- Model of `context.implementation.createHTMLDocument('')` (part_000
line 44): a fresh empty document with an empty body. Returns the document
id, the body id and the grown heap. -/
def createHTMLDocument (d : Dom) : Nat × Nat × Dom :=
  let (docId, d1) := d.alloc { nodeType := 9 }
  let (bodyId, d2) := d1.alloc { nodeType := 1, tag := "body", parentId := some docId }
  let d3 := d2.modify docId (fun nd => { nd with childIds := [bodyId] })
  (docId, bodyId, d3)

/-- Whitespace class of the JS regex `\s` (the subset relevant here). -/
def isWsChar (ch : Char) : Bool :=
  ch == ' ' || ch == '\t' || ch == '\n' || ch == '\r' || ch == '\x0c' || ch == '\x0b'

/-- Translation of the HTML-fragment test `/^\s*<.+>\s*$/.test(selector)`
(eaglejs.esm.ts line 45, part_000 line 42): optional whitespace, a `<`, at
least one character none of which is a line terminator, a `>`, optional
whitespace. -/
def isHtmlLike (s : String) : Bool :=
  let t := ((s.data.dropWhile isWsChar).reverse.dropWhile isWsChar).reverse
  match t with
  | [] => false
  | first :: rest =>
      first == '<' && decide (2 ≤ rest.length) && rest.getLast? == some '>' &&
        rest.dropLast.all (fun ch => ch != '\n' && ch != '\r')

/-- The selector argument shapes the constructors dispatch on: a string, a
single item, or an item list. -/
inductive Sel where
  | str (s : String)
  | one (it : Item)
  | many (l : List Item)
deriving DecidableEq

/-- The polymorphic matcher argument of filter / is / not: a selector
string, a callable predicate (receiving item, index and the whole array),
an item list, or a single item. -/
inductive Matcher where
  | sel (s : String)
  | pred (f : Item → Nat → List Item → Bool)
  | list (l : List Item)
  | one (it : Item)

/-- `Array.prototype.filter` with the (element, index, array) callback
shape used by `super.filter(selector, thisArg)`. -/
def filterIdxAux (f : Item → Nat → List Item → Bool) (a : List Item) :
    List Item → Nat → List Item
  | [], _ => []
  | it :: rest, i =>
      if f it i a then it :: filterIdxAux f a rest (i + 1)
      else filterIdxAux f a rest (i + 1)

def filterIdx (f : Item → Nat → List Item → Bool) (c : List Item) : List Item :=
  filterIdxAux f c c 0

/-- Translation of `EagleJS.prototype.filter` (eaglejs.esm.ts lines
474-485): four-way dispatch on the matcher kind. A string requires the
matches capability and a native selector match; a function goes to
super.filter; a list is a reference-membership test; anything else is a
reference-equality test. -/
def filterC (d : Dom) (c : List Item) (m : Matcher) : List Item :=
  match m with
  | .sel s => filterIdx (fun it _ _ => hasMatches d it && matchesSel d (idOf it) s) c
  | .pred f => filterIdx f c
  | .list l => filterIdx (fun it _ _ => l.contains it) c
  | .one i => filterIdx (fun it _ _ => it == i) c

/-- Translation of `EagleJS.prototype.not` (eaglejs.esm.ts lines 634-650):
a string keeps members that have the matches capability and do not match;
a function keeps members on which the callback is falsy; a list keeps
non-members; anything else keeps reference-unequal members. -/
def notC (d : Dom) (c : List Item) (m : Matcher) : List Item :=
  match m with
  | .sel s => filterIdx (fun it _ _ => hasMatches d it && !matchesSel d (idOf it) s) c
  | .pred f => filterIdx (fun it i a => !f it i a) c
  | .list l => filterIdx (fun it _ _ => !l.contains it) c
  | .one i => filterIdx (fun it _ _ => !(it == i)) c

/-- Element children of a node (the `children` view, elements only). -/
def elementChildren (d : Dom) (i : Nat) : List Item :=
  ((childIdsOf d i).filter (fun k => (d.get k).map (·.nodeType) == some 1)).map Item.node

/-- Translation of `EagleJS.prototype.children` (eaglejs.esm.ts lines
275-286): fresh collection, forEach push of element children, optional
trailing string filter. -/
def childrenC (d : Dom) (c : List Item) (fil : Option String) : List Item :=
  let es := c.foldl (fun acc it =>
    if hasChildren d it then push acc (elementChildren d (idOf it)) else acc) []
  match fil with
  | some s => filterC d es (.sel s)
  | none => es

/-- Translation of `EagleJS.prototype.parent` (eaglejs.esm.ts lines
728-739). -/
def parentC (d : Dom) (c : List Item) (fil : Option String) : List Item :=
  let es := c.foldl (fun acc it =>
    if hasParentNode d it then
      match parentIdOf d (idOf it) with
      | some p => push acc [Item.node p]
      | none => acc
    else acc) []
  match fil with
  | some s => filterC d es (.sel s)
  | none => es

/-- Model of `nextElementSibling`: the next sibling that is an element. -/
def nextElementSiblingOf (d : Dom) (i : Nat) : Option Nat :=
  match parentIdOf d i with
  | some p => (((childIdsOf d p).dropWhile (fun k => k ≠ i)).drop 1).find?
      (fun k => (d.get k).map (·.nodeType) == some 1)
  | none => none

/-- Model of `previousElementSibling`. -/
def prevElementSiblingOf (d : Dom) (i : Nat) : Option Nat :=
  match parentIdOf d i with
  | some p => (((childIdsOf d p).takeWhile (fun k => k ≠ i)).reverse).find?
      (fun k => (d.get k).map (·.nodeType) == some 1)
  | none => none

/-- Translation of `EagleJS.prototype.next` (eaglejs.esm.ts lines
593-604). -/
def nextC (d : Dom) (c : List Item) (fil : Option String) : List Item :=
  let es := c.foldl (fun acc it =>
    if hasElementSibling d it then
      match nextElementSiblingOf d (idOf it) with
      | some n => push acc [Item.node n]
      | none => acc
    else acc) []
  match fil with
  | some s => filterC d es (.sel s)
  | none => es

/-- Translation of `EagleJS.prototype.prev` (eaglejs.esm.ts lines
790-802). -/
def prevC (d : Dom) (c : List Item) (fil : Option String) : List Item :=
  let es := c.foldl (fun acc it =>
    if hasElementSibling d it then
      match prevElementSiblingOf d (idOf it) with
      | some n => push acc [Item.node n]
      | none => acc
    else acc) []
  match fil with
  | some s => filterC d es (.sel s)
  | none => es

/-- Model of `Element.closest`: the nearest self-or-ancestor element
matching the selector, fuel-bounded walk up the tree. -/
def closestFuel : Nat → Dom → Nat → String → Option Nat
  | 0, _, _, _ => none
  | Nat.succ fuel, d, i, s =>
      if matchesSel d i s then some i
      else
        match parentIdOf d i with
        | some p => closestFuel fuel d p s
        | none => none

def nodeClosest (d : Dom) (i : Nat) (s : String) : Option Nat :=
  closestFuel (d.store.length + 1) d i s

/-- Translation of `EagleJS.prototype.closest` (eaglejs.esm.ts lines
322-333). -/
def closestC (d : Dom) (c : List Item) (s : String) : List Item :=
  c.foldl (fun acc it =>
    if hasMatches d it then
      match nodeClosest d (idOf it) s with
      | some n => push acc [Item.node n]
      | none => acc
    else acc) []

/-- Translation of `EagleJS.prototype.clone` (eaglejs.esm.ts lines
301-309): fresh collection, a host cloneNode allocation per capable
member. -/
def cloneC (d : Dom) (c : List Item) (deep : Bool) : List Item × Dom :=
  c.foldl (fun acc it =>
    if hasCloneNode acc.2 it then
      let (nid, d2) := cloneNode acc.2 (idOf it) deep
      (push acc.1 [Item.node nid], d2)
    else acc) ([], d)

/-! Get-or-set accessors. The possible return values of the overloaded
methods: the receiver, a string, null, or undefined. -/

inductive GetSet where
  | coll (c : List Item)
  | strv (s : String)
  | nullv
  | undefv
deriving DecidableEq

/-- Association-list update used by the attribute and dataset stores. -/
def setAssoc : List (String × String) → String → String → List (String × String)
  | [], k, v => [(k, v)]
  | (k0, v0) :: rest, k, v =>
      if k0 = k then (k, v) :: rest else (k0, v0) :: setAssoc rest k v

def lookupAssoc : List (String × String) → String → Option String
  | [], _ => none
  | (k0, v0) :: rest, k => if k0 = k then some v0 else lookupAssoc rest k

/-- Model of `element.setAttribute(name, value)`. -/
def setAttribute (d : Dom) (i : Nat) (n v : String) : Dom :=
  d.modify i (fun nd => { nd with attrs := setAssoc nd.attrs n v })

/-- Model of `element.getAttribute(name)` (null when absent). -/
def getAttribute (d : Dom) (i : Nat) (n : String) : Option String :=
  (d.get i).bind (fun nd => lookupAssoc nd.attrs n)

/-- The short-circuiting `this.some` get loop of `attr` (eaglejs.esm.ts
lines 214-223): the first member with the capability decides the result. -/
def attrGetLoop (d : Dom) (n : String) : List Item → GetSet
  | [] => .nullv
  | it :: rest =>
      if hasGetAttribute d it then
        match getAttribute d (idOf it) n with
        | some s => .strv s
        | none => .nullv
      else attrGetLoop d n rest

/-- Translation of `EagleJS.prototype.attr` (eaglejs.esm.ts lines
205-224). -/
def attrC (d : Dom) (c : List Item) (n : String) (value : Option String) :
    GetSet × Dom :=
  match value with
  | some v =>
      (.coll c,
        c.foldl (fun da it =>
          if hasSetAttribute da it then setAttribute da (idOf it) n v else da) d)
  | none => (attrGetLoop d n c, d)

/-- The short-circuiting get loop of `html` (eaglejs.esm.ts lines
527-535); the sentinel is the empty string. -/
def htmlGetLoop (d : Dom) : List Item → GetSet
  | [] => .strv ""
  | it :: rest =>
      if hasInnerHTML d it then .strv (((d.get (idOf it)).map (·.innerHTMLv)).getD "")
      else htmlGetLoop d rest

/-- Translation of `EagleJS.prototype.html` (eaglejs.esm.ts lines
518-537). -/
def htmlC (d : Dom) (c : List Item) (value : Option String) : GetSet × Dom :=
  match value with
  | some v =>
      (.coll c,
        c.foldl (fun da it =>
          if hasInnerHTML da it then setInnerHTML da (idOf it) v else da) d)
  | none => (htmlGetLoop d c, d)

/-- Model of the host textContent setter: children discarded, text
replaced. -/
def setTextContent (d : Dom) (i : Nat) (v : String) : Dom :=
  d.modify i (fun nd => { nd with text := v, childIds := [] })

/-- The short-circuiting get loop of `text` (eaglejs.esm.ts lines
1023-1031); the sentinel is null. -/
def textGetLoop (d : Dom) : List Item → GetSet
  | [] => .nullv
  | it :: rest =>
      if hasTextContent d it then .strv (((d.get (idOf it)).map (·.text)).getD "")
      else textGetLoop d rest

/-- Translation of `EagleJS.prototype.text` (eaglejs.esm.ts lines
1014-1033). -/
def textC (d : Dom) (c : List Item) (value : Option String) : GetSet × Dom :=
  match value with
  | some v =>
      (.coll c,
        c.foldl (fun da it =>
          if hasTextContent da it then setTextContent da (idOf it) v else da) d)
  | none => (textGetLoop d c, d)

/-- Translation of the `-([a-z])` to upper-case replacement of `data`
(eaglejs.esm.ts lines 392-394), scanning left to right without overlap. -/
def camelizeChars : List Char → List Char
  | [] => []
  | [ch] => [ch]
  | '-' :: ch2 :: rest =>
      if 'a' ≤ ch2 && ch2 ≤ 'z' then ch2.toUpper :: camelizeChars rest
      else '-' :: camelizeChars (ch2 :: rest)
  | ch :: rest => ch :: camelizeChars rest

def camelizeKey (s : String) : String :=
  String.mk (camelizeChars s.data)

/-- Model of a dataset write. -/
def setDataset (d : Dom) (i : Nat) (k v : String) : Dom :=
  d.modify i (fun nd => { nd with dataset := setAssoc nd.dataset k v })

def getDataset (d : Dom) (i : Nat) (k : String) : Option String :=
  (d.get i).bind (fun nd => lookupAssoc nd.dataset k)

/-- The short-circuiting keyed get loop of `data` (eaglejs.esm.ts lines
403-412); the sentinel is undefined. -/
def dataGetLoop (d : Dom) (k : String) : List Item → GetSet
  | [] => .undefv
  | it :: rest =>
      if hasDataset d it then
        match getDataset d (idOf it) k with
        | some s => .strv s
        | none => .undefv
      else dataGetLoop d k rest

/-- Translation of the keyed forms of `EagleJS.prototype.data`
(eaglejs.esm.ts lines 389-413): the key is camel-cased first, then either
every capable member is written or the first capable member is read. -/
def dataC (d : Dom) (c : List Item) (k : String) (value : Option String) :
    GetSet × Dom :=
  let ck := camelizeKey k
  match value with
  | some v =>
      (.coll c,
        c.foldl (fun da it =>
          if hasDataset da it then setDataset da (idOf it) ck v else da) d)
  | none => (dataGetLoop d ck c, d)

/-! Content-inserting operations. -/

/-- One variadic content argument of after / before / append / prepend:
raw text or an existing node. -/
inductive Content where
  | str (s : String)
  | nd (id : Nat)
deriving DecidableEq

/-- The materialization loop shared by the four insertion methods
(eaglejs.esm.ts lines 129-136 and siblings): each string becomes one fresh
text node, each node passes through by reference. -/
def materializeContent (d : Dom) (contents : List Content) : List Nat × Dom :=
  contents.foldl (fun acc v =>
    match v with
    | .str s =>
        let (t, d2) := createTextNode acc.2 s
        (acc.1 ++ [t], d2)
    | .nd n => (acc.1 ++ [n], acc.2)) ([], d)

/-- Translation of `EagleJS.prototype.after` (eaglejs.esm.ts lines
127-149): materialize once, then walk a reversed copy of the collection;
the first visited target with the ChildNode capability and a parent
receives the originals, every later one receives deep clones, each
inserted before the next sibling captured up front. -/
def afterC (d : Dom) (c : List Item) (contents : List Content) :
    List Item × Dom :=
  let md := materializeContent d contents
  let fin := c.reverse.foldl (fun (st : Bool × Dom) it =>
    if isChildNode st.2 it && (parentIdOf st.2 (idOf it)).isSome then
      let parent := (parentIdOf st.2 (idOf it)).getD 0
      let next := nextSiblingOf st.2 (idOf it)
      let d2 := md.1.foldl (fun da n =>
        if st.1 then domInsertBefore da parent n next
        else
          let (nn, da2) := cloneNode da n true
          domInsertBefore da2 parent nn next) st.2
      (false, d2)
    else st) (true, md.2)
  (c, fin.2)

/-- Translation of `EagleJS.prototype.before` (eaglejs.esm.ts lines
240-261): as `after`, inserting before the target itself. -/
def beforeC (d : Dom) (c : List Item) (contents : List Content) :
    List Item × Dom :=
  let md := materializeContent d contents
  let fin := c.reverse.foldl (fun (st : Bool × Dom) it =>
    if isChildNode st.2 it && (parentIdOf st.2 (idOf it)).isSome then
      let parent := (parentIdOf st.2 (idOf it)).getD 0
      let d2 := md.1.foldl (fun da n =>
        if st.1 then domInsertBefore da parent n (some (idOf it))
        else
          let (nn, da2) := cloneNode da n true
          domInsertBefore da2 parent nn (some (idOf it))) st.2
      (false, d2)
    else st) (true, md.2)
  (c, fin.2)

/-- Translation of `EagleJS.prototype.append` (eaglejs.esm.ts lines
165-185): as `after`, guarded by the ParentNode capability, appending at
the end of each target. -/
def appendC (d : Dom) (c : List Item) (contents : List Content) :
    List Item × Dom :=
  let md := materializeContent d contents
  let fin := c.reverse.foldl (fun (st : Bool × Dom) it =>
    if hasQuerySelector st.2 it then
      let d2 := md.1.foldl (fun da n =>
        if st.1 then domAppendChild da (idOf it) n
        else
          let (nn, da2) := cloneNode da n true
          domAppendChild da2 (idOf it) nn) st.2
      (false, d2)
    else st) (true, md.2)
  (c, fin.2)

/-- Translation of `EagleJS.prototype.prepend` (eaglejs.esm.ts lines
755-776): as `append`, inserting before the first child captured before
the inner loop. -/
def prependC (d : Dom) (c : List Item) (contents : List Content) :
    List Item × Dom :=
  let md := materializeContent d contents
  let fin := c.reverse.foldl (fun (st : Bool × Dom) it =>
    if hasQuerySelector st.2 it then
      let fc := firstChildOf st.2 (idOf it)
      let d2 := md.1.foldl (fun da n =>
        if st.1 then domInsertBefore da (idOf it) n fc
        else
          let (nn, da2) := cloneNode da n true
          domInsertBefore da2 (idOf it) nn fc) st.2
      (false, d2)
    else st) (true, md.2)
  (c, fin.2)

/-! Event scheduling effects, for the `ready` contract. -/

/-- Observable host effects a call can emit: registering an event
listener on a target, scheduling the listener for a later event-loop turn
(setTimeout), or invoking the listener synchronously. -/
inductive Effect where
  | addListener (target : Item) (event : String)
  | scheduleTimeout
  | invokeNow
deriving DecidableEq

/-- Translation of `EagleJS.prototype.ready` (eaglejs.esm.ts lines
880-891): for each member with a readyState, either register for
DOMContentLoaded (still loading) or schedule via setTimeout; the listener
is never called directly. Returns the receiver and the emitted effect
trace. -/
def readyC (d : Dom) (c : List Item) : List Item × List Effect :=
  (c, c.foldl (fun acc it =>
    if hasReadyState d it then
      if readyStateOf d it == "loading" then
        acc ++ [Effect.addListener it "DOMContentLoaded"]
      else acc ++ [Effect.scheduleTimeout]
    else acc) [])

/-! Class toggling. -/

/-- Model of `DOMTokenList.toggle(name, force)`: with no force the class
flips; force true adds, force false removes. -/
def classListToggle (classes : List String) (name : String)
    (force : Option Bool) : List String :=
  match force with
  | none => if classes.contains name then classes.erase name else classes ++ [name]
  | some true => if classes.contains name then classes else classes ++ [name]
  | some false => classes.erase name

def setClasses (d : Dom) (i : Nat) (cs : List String) : Dom :=
  d.modify i (fun nd => { nd with classes := cs })

def classesOf (d : Dom) (i : Nat) : List String :=
  ((d.get i).map (·.classes)).getD []

/-- Translation of the typed `EagleJS.prototype.toggleClass`
(eaglejs.esm.ts lines 1049-1056): the force argument is forwarded to the
host classList.toggle. -/
def toggleClassTS (d : Dom) (c : List Item) (name : String)
    (force : Option Bool) : List Item × Dom :=
  (c, c.foldl (fun da it =>
    if hasClassList da it then
      setClasses da (idOf it) (classListToggle (classesOf da (idOf it)) name force)
    else da) d)

/-- Translation of the legacy `toggleClass` (part_000 lines 1098-1113):
it branches on whether force is null, but both branches execute the same
body `item.classList.toggle(name)` with no second argument. -/
def toggleClassLegacy (d : Dom) (c : List Item) (name : String)
    (force : Option Bool) : List Item × Dom :=
  if force == none then
    (c, c.foldl (fun da it =>
      if isElementLegacy da it then
        setClasses da (idOf it) (classListToggle (classesOf da (idOf it)) name none)
      else da) d)
  else
    (c, c.foldl (fun da it =>
      if isElementLegacy da it then
        setClasses da (idOf it) (classListToggle (classesOf da (idOf it)) name none)
      else da) d)

/-! Constructors. `new EagleJS(selector, context)` dispatches on the
selector shape; the recursive inner call `new EagleJS(context)` uses the
default context (the global document), so the recursion bottoms out after
one level and is unfolded into a dedicated definition. -/

/-- Translation of the typed constructor (eaglejs.esm.ts lines 41-57)
specialized to the default context argument (the global document), as in
the inner call `new EagleJS(context)` of the selector branch. -/
def ctorTSDoc (d : Dom) (selector : Option Sel) : List Item × Dom :=
  match selector with
  | none => ([], d)
  | some (.str s) =>
      if isHtmlLike s then
        let pr := domParserParseBody d s
        (push [] (pr.1.map Item.node), pr.2)
      else
        let ctx := push [] [Item.node d.documentId]
        (querySelectorAllC d ctx s, d)
  | some (.one it) => (push [] [it], d)
  | some (.many l) => (push [] l, d)

/-- Translation of the typed constructor (eaglejs.esm.ts lines 41-57)
with an explicit context: null gives an empty collection; an
HTML-fragment-shaped string is parsed with DOMParser and the body child
nodes are pushed; any other string queries all matching descendants over
the collection built from the context; an item or item list is pushed
directly. -/
def ctorTS (d : Dom) (selector : Option Sel) (context : Sel) : List Item × Dom :=
  match selector with
  | none => ([], d)
  | some (.str s) =>
      if isHtmlLike s then
        let pr := domParserParseBody d s
        (push [] (pr.1.map Item.node), pr.2)
      else
        let inner := ctorTSDoc d (some context)
        (querySelectorAllC inner.2 inner.1 s, inner.2)
  | some (.one it) => (push [] [it], d)
  | some (.many l) => (push [] l, d)

/-- Translation of the legacy constructor (part_000 lines 38-56)
specialized to the default document context. -/
def ctorLegacyDoc (d : Dom) (selector : Option Sel) : List Item × Dom :=
  match selector with
  | none => ([], d)
  | some (.str s) =>
      if isHtmlLike s then
        -- the default context is the global document, so isDocument holds
        -- and the parse path runs:
        -- new EagleJS('body', doc).html(selector).children()
        let hd := createHTMLDocument d
        let bColl := findC hd.2.2 (push [] [Item.node hd.1]) "body"
        let hs := htmlC hd.2.2 bColl (some s)
        (childrenC hs.2 bColl none, hs.2)
      else
        let ctx := push [] [Item.node d.documentId]
        (findC d ctx s, d)
  | some (.one it) => (push [] [it], d)
  | some (.many l) => (push [] l, d)

/-- Translation of the legacy constructor (part_000 lines 38-56) with an
explicit context. An HTML-fragment-shaped string is handled only when the
context is a Document: a scratch document is created, its body receives
the markup via innerHTML, and the body element children form the result
(via `new EagleJS('body', doc).html(selector).children()`, unfolded here:
the inner selector 'body' is not HTML-shaped and the inner context is a
document item, so the inner call reduces to find over the one-document
collection). When the context is not a Document the branch falls through
with the collection still empty. A non-HTML string queries via find over
the collection built from the context. -/
def ctorLegacy (d : Dom) (selector : Option Sel) (context : Sel) : List Item × Dom :=
  match selector with
  | none => ([], d)
  | some (.str s) =>
      if isHtmlLike s then
        match context with
        | .one it =>
            if isDocumentLegacy d it then
              let hd := createHTMLDocument d
              let bColl := findC hd.2.2 (push [] [Item.node hd.1]) "body"
              let hs := htmlC hd.2.2 bColl (some s)
              (childrenC hs.2 bColl none, hs.2)
            else ([], d)
        | _ => ([], d)
      else
        let inner := ctorLegacyDoc d (some context)
        (findC inner.2 inner.1 s, inner.2)
  | some (.one it) => (push [] [it], d)
  | some (.many l) => (push [] l, d)

/-! Full-effect views of the projection operations, for the frame
property: each returns the projected result together with the receiver
and heap as they stand after the call. The sources of the projections
(children, parent, next, prev, closest, clone, the descendant query,
filter, not) never invoke a mutator on `this`, which the translations
record by passing the receiver through unchanged. -/

def childrenFull (d : Dom) (c : List Item) (fil : Option String) :
    List Item × List Item × Dom :=
  (childrenC d c fil, c, d)

def parentFull (d : Dom) (c : List Item) (fil : Option String) :
    List Item × List Item × Dom :=
  (parentC d c fil, c, d)

def nextFull (d : Dom) (c : List Item) (fil : Option String) :
    List Item × List Item × Dom :=
  (nextC d c fil, c, d)

def prevFull (d : Dom) (c : List Item) (fil : Option String) :
    List Item × List Item × Dom :=
  (prevC d c fil, c, d)

def closestFull (d : Dom) (c : List Item) (s : String) :
    List Item × List Item × Dom :=
  (closestC d c s, c, d)

def cloneFull (d : Dom) (c : List Item) (deep : Bool) :
    List Item × List Item × Dom :=
  ((cloneC d c deep).1, c, (cloneC d c deep).2)

def querySelectorAllFull (d : Dom) (c : List Item) (s : String) :
    List Item × List Item × Dom :=
  (querySelectorAllC d c s, c, d)

def filterFull (d : Dom) (c : List Item) (m : Matcher) :
    List Item × List Item × Dom :=
  (filterC d c m, c, d)

def notFull (d : Dom) (c : List Item) (m : Matcher) :
    List Item × List Item × Dom :=
  (notC d c m, c, d)

/-! Spec-side readings of the get accessors (for claim comparison): the
accessor value of the first eligible member only, or the documented
default sentinel when no member is eligible. -/

def attrFirstSpec (d : Dom) (c : List Item) (n : String) : GetSet :=
  match c.find? (fun it => hasGetAttribute d it) with
  | some it =>
      match getAttribute d (idOf it) n with
      | some s => .strv s
      | none => .nullv
  | none => .nullv

def htmlFirstSpec (d : Dom) (c : List Item) : GetSet :=
  match c.find? (fun it => hasInnerHTML d it) with
  | some it => .strv (((d.get (idOf it)).map (·.innerHTMLv)).getD "")
  | none => .strv ""

def textFirstSpec (d : Dom) (c : List Item) : GetSet :=
  match c.find? (fun it => hasTextContent d it) with
  | some it => .strv (((d.get (idOf it)).map (·.text)).getD "")
  | none => .nullv

def dataFirstSpec (d : Dom) (c : List Item) (ck : String) : GetSet :=
  match c.find? (fun it => hasDataset d it) with
  | some it =>
      match getDataset d (idOf it) ck with
      | some s => .strv s
      | none => .undefv
  | none => .undefv

/-! Concrete example documents used by the closed theorems. -/

/-- A parent div (id 0) with two element children A (id 1) and B (id 2) in
that document order. -/
def domSib : Dom :=
  { nextId := 3, documentId := 0,
    store := [
      (0, { nodeType := 1, tag := "div", childIds := [1, 2] }),
      (1, { nodeType := 1, tag := "span", parentId := some 0 }),
      (2, { nodeType := 1, tag := "span", parentId := some 0 })] }

/-- The heap after calling after with one text input on the collection
A, B over `domSib`. -/
def afterSibDom (s : String) : Dom :=
  (afterC domSib [Item.node 1, Item.node 2] [Content.str s]).2

/-- The heap after calling before with one text input on the collection
A, B over `domSib`. -/
def beforeSibDom (s : String) : Dom :=
  (beforeC domSib [Item.node 1, Item.node 2] [Content.str s]).2

/-- A parent div (id 0) with three element children ids 1, 2, 3. -/
def domSib3 : Dom :=
  { nextId := 4, documentId := 0,
    store := [
      (0, { nodeType := 1, tag := "div", childIds := [1, 2, 3] }),
      (1, { nodeType := 1, tag := "span", parentId := some 0 }),
      (2, { nodeType := 1, tag := "span", parentId := some 0 }),
      (3, { nodeType := 1, tag := "span", parentId := some 0 })] }

/-- The heap after calling after with one text input on the three-target
collection over `domSib3`. -/
def afterSib3Dom (s : String) : Dom :=
  (afterC domSib3 [Item.node 1, Item.node 2, Item.node 3] [Content.str s]).2

/-- Two parent divs (ids 0, 1), each with one element child (ids 2, 3). -/
def domPar : Dom :=
  { nextId := 4, documentId := 0,
    store := [
      (0, { nodeType := 1, tag := "div", childIds := [2] }),
      (1, { nodeType := 1, tag := "div", childIds := [3] }),
      (2, { nodeType := 1, tag := "b", parentId := some 0 }),
      (3, { nodeType := 1, tag := "b", parentId := some 1 })] }

/-- The heap after calling append with one text input on the collection
P, Q over `domPar`. -/
def appendParDom (s : String) : Dom :=
  (appendC domPar [Item.node 0, Item.node 1] [Content.str s]).2

/-- The heap after calling prepend with one text input on the collection
P, Q over `domPar`. -/
def prependParDom (s : String) : Dom :=
  (prependC domPar [Item.node 0, Item.node 1] [Content.str s]).2

/-- A document (id 0) and a detached element (id 10) with no children. -/
def domCtx : Dom :=
  { nextId := 11, documentId := 0,
    store := [
      (0, { nodeType := 9 }),
      (10, { nodeType := 1, tag := "div" })] }

/-- A lone text node (id 1): it has no `matches` member. -/
def domTxt : Dom :=
  { nextId := 2, documentId := 0,
    store := [(1, { nodeType := 3, text := "t" })] }

/-- A lone element carrying class `cls`. -/
def domCls : Dom :=
  { nextId := 1, documentId := 0,
    store := [(0, { nodeType := 1, tag := "div", classes := ["cls"] })] }

/-- Three elements with id attributes a, b, c. -/
def domAttr : Dom :=
  { nextId := 3, documentId := 0,
    store := [
      (0, { nodeType := 1, tag := "div", attrs := [("id", "a")] }),
      (1, { nodeType := 1, tag := "div", attrs := [("id", "b")] }),
      (2, { nodeType := 1, tag := "div", attrs := [("id", "c")] })] }

/-- A loading document (id 0) and a complete document (id 1). -/
def domReady : Dom :=
  { nextId := 2, documentId := 0,
    store := [
      (0, { nodeType := 9, readyState := "loading" }),
      (1, { nodeType := 9, readyState := "complete" })] }

/-! Theorems. -/

/-- Claim C1: every content-inserting operation (after, before, append,
prepend) visits a multi-target collection in reverse order; the first
target visited (the last in forward order) receives the materialized
content nodes themselves, and every subsequent target receives a deep
clone, so no node instance is inserted under two parents. For targets
A (id 1) and B (id 2) and one text input, the created text node is id 3
(the pre-call nextId) and exactly one of the two inserted nodes is that
original, the other being a distinct freshly allocated clone (id 4) with
the same text value; the three-target scenario shows every subsequent
target receiving its own fresh clone, and the append and prepend
scenarios on two parent targets show the same original-to-last,
clone-to-earlier distribution. -/
theorem C1_insertion_original_then_clones :
    (childIdsOf (afterSibDom "x") 0 = [1, 4, 2, 3] ∧
      ((3 = domSib.nextId ∧ ¬4 = domSib.nextId) ∨
        (4 = domSib.nextId ∧ ¬3 = domSib.nextId)) ∧
      textOf (afterSibDom "x") 3 = some "x" ∧
      textOf (afterSibDom "x") 4 = some "x") ∧
    (childIdsOf (afterSib3Dom "x") 0 = [1, 6, 2, 5, 3, 4] ∧
      4 = domSib3.nextId ∧ ¬5 = domSib3.nextId ∧ ¬6 = domSib3.nextId ∧
      textOf (afterSib3Dom "x") 4 = some "x" ∧
      textOf (afterSib3Dom "x") 5 = some "x" ∧
      textOf (afterSib3Dom "x") 6 = some "x") ∧
    (childIdsOf (beforeSibDom "x") 0 = [4, 1, 3, 2] ∧
      textOf (beforeSibDom "x") 3 = some "x" ∧
      textOf (beforeSibDom "x") 4 = some "x") ∧
    (childIdsOf (appendParDom "x") 0 = [2, 5] ∧
      childIdsOf (appendParDom "x") 1 = [3, 4] ∧
      4 = domPar.nextId ∧ ¬5 = domPar.nextId ∧
      textOf (appendParDom "x") 4 = some "x" ∧
      textOf (appendParDom "x") 5 = some "x") ∧
    (childIdsOf (prependParDom "x") 0 = [5, 2] ∧
      childIdsOf (prependParDom "x") 1 = [4, 3] ∧
      textOf (prependParDom "x") 4 = some "x" ∧
      textOf (prependParDom "x") 5 = some "x") := by
  decide

/-- Claim C2: for siblings A (id 1) then B (id 2) in document order,
calling after with one text input on the collection A, B produces the
document order A, copy, B, copy — each original target immediately
followed by its own inserted text node — and not the order with both
copies after B. -/
theorem C2_after_preserves_relative_order :
    childIdsOf (afterSibDom "x") 0 = [1, 4, 2, 3] ∧
    textOf (afterSibDom "x") 4 = some "x" ∧
    textOf (afterSibDom "x") 3 = some "x" ∧
    ¬childIdsOf (afterSibDom "x") 0 = [1, 2, 3, 4] ∧
    ¬childIdsOf (afterSibDom "x") 0 = [1, 2, 4, 3] := by
  decide

/-- Counterexample for claim C5: a single push call whose argument list
repeats the same fresh item passes the duplicate through, because the
dedup filter is evaluated in full against the pre-push state; the
resulting collection holds the same reference twice. -/
theorem C5_counterexample :
    push [] [Item.node 0, Item.node 0] = [Item.node 0, Item.node 0] ∧
    ¬(push [] [Item.node 0, Item.node 0]).Nodup := by
  decide

/-- Counterexample for claim C6: with a string matcher, an item lacking
the matches capability (a text node) is kept by neither filter nor not,
so membership in the not result is not the negation of membership in the
filter result. -/
theorem C6_counterexample :
    ¬(Item.node 1 ∈ notC domTxt [Item.node 1] (Matcher.sel "p") ↔
      Item.node 1 ∉ filterC domTxt [Item.node 1] (Matcher.sel "p")) := by
  decide

/-- Counterexample for claim C4: in the typed constructor an
HTML-fragment-shaped string together with a non-document context is not
treated as a plain selector query against that context — it is parsed as
HTML regardless, and the two results differ. -/
theorem C4_counterexample :
    ¬(ctorTS domCtx (some (Sel.str "<p>")) (Sel.one (Item.node 10))).1 =
      querySelectorAllC domCtx
        (ctorTSDoc domCtx (some (Sel.one (Item.node 10)))).1 "<p>" := by
  decide

/-- Claim C10: the legacy toggleClass ignores its force argument
entirely — for any force value the result equals the call with force
omitted, which in turn equals the typed variant with no force (an
unconditional toggle on every element) — while the typed variant forwards
force to the host classList.toggle and is observably sensitive to it. -/
theorem C10_legacy_toggleClass_ignores_force :
    (∀ (d : Dom) (c : List Item) (name : String) (f : Option Bool),
      toggleClassLegacy d c name f = toggleClassLegacy d c name none) ∧
    (∀ (d : Dom) (c : List Item) (name : String) (f : Option Bool),
      toggleClassLegacy d c name f = toggleClassTS d c name none) ∧
    ¬toggleClassTS domCls [Item.node 0] "cls" (some true) =
      toggleClassTS domCls [Item.node 0] "cls" (some false) := by
  refine ⟨fun d c name f => ?_, fun d c name f => ?_, by decide⟩
  · cases f <;> rfl
  · cases f <;> rfl

/-- Claim C8: every projection operation (children, parent, next, prev,
closest, clone, descendant query, filter, not) returns a new collection
and leaves the receiver — its members and their order — unchanged; the
full-effect views return the receiver exactly as it was passed in. -/
theorem C8_projection_purity (d : Dom) (c : List Item) :
    (∀ fil, (childrenFull d c fil).2.1 = c) ∧
    (∀ fil, (parentFull d c fil).2.1 = c) ∧
    (∀ fil, (nextFull d c fil).2.1 = c) ∧
    (∀ fil, (prevFull d c fil).2.1 = c) ∧
    (∀ s, (closestFull d c s).2.1 = c) ∧
    (∀ deep, (cloneFull d c deep).2.1 = c) ∧
    (∀ s, (querySelectorAllFull d c s).2.1 = c) ∧
    (∀ m, (filterFull d c m).2.1 = c) ∧
    (∀ m, (notFull d c m).2.1 = c) :=
  ⟨fun _ => rfl, fun _ => rfl, fun _ => rfl, fun _ => rfl, fun _ => rfl,
   fun _ => rfl, fun _ => rfl, fun _ => rfl, fun _ => rfl⟩

/-- Claim C5 (amended): pushing or unshifting a value that is already a
member by reference, or that is not a DOMItem, leaves the collection
unchanged in length and order; and a push or unshift of a batch with no
internal repetitions onto a duplicate-free collection keeps it
duplicate-free. (A single call that passes the same new reference twice
does insert it twice — see the counterexample.) -/
theorem C5_push_unshift_dedup (c : List Item) (x : Item) (items : List Item) :
    (x ∈ c → push c [x] = c ∧ unshift c [x] = c) ∧
    (isDOMItem x = false → push c [x] = c ∧ unshift c [x] = c) ∧
    (c.Nodup → items.Nodup → (push c items).Nodup ∧ (unshift c items).Nodup) := by
  refine ⟨fun hx => ?_, fun hx => ?_, fun hc hi => ?_⟩
  · have hcon : c.contains x = true := by
      simp [List.contains, List.elem_eq_mem, hx]
    constructor <;> simp [push, unshift, hcon] <;> exact fun _ => hx
  · constructor <;> simp [push, unshift, hx]
  · have hfil : (items.filter (fun y => isDOMItem y && !(c.contains y))).Nodup :=
      hi.filter _
    have hdisj : c.Disjoint (items.filter (fun y => isDOMItem y && !(c.contains y))) := by
      intro a hac haf
      have hp := List.of_mem_filter haf
      simp [List.contains, List.elem_eq_mem, hac] at hp
    exact ⟨List.nodup_append.mpr ⟨hc, hfil, hdisj⟩,
      List.nodup_append.mpr ⟨hfil, hc, fun ha haf hac => hdisj hac haf⟩⟩

/-- Witness for claim C5: a present item and a non-DOMItem are dropped,
and a fresh distinct item keeps the collection duplicate-free. -/
theorem C5_push_unshift_dedup_witness :
    push [Item.node 0] [Item.node 0] = [Item.node 0] ∧
    push [Item.node 0] [Item.plain 1] = [Item.node 0] ∧
    (push [Item.node 0] [Item.node 1]).Nodup :=
  ⟨((C5_push_unshift_dedup [Item.node 0] (Item.node 0) []).1 (by decide)).1,
   ((C5_push_unshift_dedup [Item.node 0] (Item.plain 1) []).2.1 (by decide)).1,
   ((C5_push_unshift_dedup [Item.node 0] (Item.node 1) [Item.node 1]).2.2
     (by decide) (by decide)).1⟩

/-- For an index-independent test the index-passing filter is the plain
list filter. -/
theorem filterIdxAux_const_eq_filter (p : Item → Bool) (a : List Item) :
    ∀ (l : List Item) (i : Nat),
      filterIdxAux (fun it _ _ => p it) a l i = l.filter p := by
  intro l
  induction l with
  | nil => intro i; rfl
  | cons it rest ih =>
    intro i
    by_cases h : p it = true <;>
      simp [filterIdxAux, List.filter_cons, h, ih (i + 1)]

/-- The index-passing filter only keeps members of the input. -/
theorem mem_filterIdxAux_subset (f : Item → Nat → List Item → Bool) (a : List Item) :
    ∀ (l : List Item) (i : Nat) (x : Item),
      x ∈ filterIdxAux f a l i → x ∈ l := by
  intro l
  induction l with
  | nil => intro i x h; simp [filterIdxAux] at h
  | cons it rest ih =>
    intro i x h
    simp only [filterIdxAux] at h
    by_cases hf : f it i a = true
    · rw [if_pos hf] at h
      rcases List.mem_cons.mp h with rfl | h
      · exact List.mem_cons_self _ _
      · exact List.mem_cons_of_mem _ (ih (i + 1) x h)
    · rw [if_neg hf] at h
      exact List.mem_cons_of_mem _ (ih (i + 1) x h)

/-- Every member of the input lands in the index-passing filter of a test
or in that of its pointwise negation. -/
theorem mem_filterIdxAux_cover (f : Item → Nat → List Item → Bool) (a : List Item) :
    ∀ (l : List Item) (i : Nat) (x : Item), x ∈ l →
      x ∈ filterIdxAux f a l i ∨
        x ∈ filterIdxAux (fun it j b => !f it j b) a l i := by
  intro l
  induction l with
  | nil => intro i x h; simp at h
  | cons it rest ih =>
    intro i x h
    rcases List.mem_cons.mp h with rfl | h
    · by_cases hf : f x i a = true
      · left
        simp only [filterIdxAux]
        rw [if_pos hf]
        exact List.mem_cons_self _ _
      · right
        simp only [filterIdxAux]
        rw [if_pos (show (!f x i a) = true by simp [hf])]
        exact List.mem_cons_self _ _
    · rcases ih (i + 1) x h with hm | hm
      · left
        simp only [filterIdxAux]
        by_cases hf : f it i a = true
        · rw [if_pos hf]; exact List.mem_cons_of_mem _ hm
        · rw [if_neg hf]; exact hm
      · right
        simp only [filterIdxAux]
        by_cases hf : (!f it i a) = true
        · rw [if_pos hf]; exact List.mem_cons_of_mem _ hm
        · rw [if_neg hf]; exact hm

/-- On a duplicate-free input, no member lands in both the index-passing
filter of a test and that of its pointwise negation. -/
theorem mem_filterIdxAux_not_both (f : Item → Nat → List Item → Bool) (a : List Item) :
    ∀ (l : List Item) (i : Nat) (x : Item), l.Nodup →
      x ∈ filterIdxAux f a l i →
      x ∈ filterIdxAux (fun it j b => !f it j b) a l i → False := by
  intro l
  induction l with
  | nil => intro i x _ h; simp [filterIdxAux] at h
  | cons it rest ih =>
    intro i x hnd h1 h2
    have hit : it ∉ rest := (List.nodup_cons.mp hnd).1
    have hrest : rest.Nodup := (List.nodup_cons.mp hnd).2
    simp only [filterIdxAux] at h1 h2
    by_cases hf : f it i a = true
    · rw [if_pos hf] at h1
      rw [if_neg (show ¬(!f it i a) = true by simp [hf])] at h2
      rcases List.mem_cons.mp h1 with rfl | h1
      · exact hit (mem_filterIdxAux_subset _ _ _ _ _ h2)
      · exact ih (i + 1) x hrest h1 h2
    · rw [if_neg hf] at h1
      rw [if_pos (show (!f it i a) = true by simp [hf])] at h2
      rcases List.mem_cons.mp h2 with rfl | h2
      · exact hit (mem_filterIdxAux_subset _ _ _ _ _ h1)
      · exact ih (i + 1) x hrest h1 h2

/-- Claim C6 (amended): the per-item test of not is the exact logical
negation of that of filter for the predicate, item-list and single-item
matcher forms; for a string selector the negation holds only among
members carrying the matches capability — a member without it is kept by
neither filter nor not. -/
theorem C6_not_negates_filter (d : Dom) (c : List Item) (x : Item) :
    (∀ l, x ∈ c →
      (x ∈ notC d c (Matcher.list l) ↔ x ∉ filterC d c (Matcher.list l))) ∧
    (∀ i, x ∈ c →
      (x ∈ notC d c (Matcher.one i) ↔ x ∉ filterC d c (Matcher.one i))) ∧
    (∀ s, x ∈ c → hasMatches d x = true →
      (x ∈ notC d c (Matcher.sel s) ↔ x ∉ filterC d c (Matcher.sel s))) ∧
    (∀ s, hasMatches d x = false →
      x ∉ notC d c (Matcher.sel s) ∧ x ∉ filterC d c (Matcher.sel s)) ∧
    (∀ f, c.Nodup → x ∈ c →
      (x ∈ notC d c (Matcher.pred f) ↔ x ∉ filterC d c (Matcher.pred f))) := by
  refine ⟨fun l hx => ?_, fun i hx => ?_, fun s hx hm => ?_, fun s hm => ?_,
    fun f hnd hx => ?_⟩
  · have e1 : notC d c (Matcher.list l) = c.filter (fun it => !l.contains it) :=
      filterIdxAux_const_eq_filter (fun it => !l.contains it) c c 0
    have e2 : filterC d c (Matcher.list l) = c.filter (fun it => l.contains it) :=
      filterIdxAux_const_eq_filter (fun it => l.contains it) c c 0
    rw [e1, e2, List.mem_filter, List.mem_filter]
    cases hb : l.contains x <;> simp [hx, hb]
  · have e1 : notC d c (Matcher.one i) = c.filter (fun it => !(it == i)) :=
      filterIdxAux_const_eq_filter (fun it => !(it == i)) c c 0
    have e2 : filterC d c (Matcher.one i) = c.filter (fun it => it == i) :=
      filterIdxAux_const_eq_filter (fun it => it == i) c c 0
    rw [e1, e2, List.mem_filter, List.mem_filter]
    cases hb : x == i <;> simp [hx, hb]
  · have e1 : notC d c (Matcher.sel s) =
        c.filter (fun it => hasMatches d it && !matchesSel d (idOf it) s) :=
      filterIdxAux_const_eq_filter
        (fun it => hasMatches d it && !matchesSel d (idOf it) s) c c 0
    have e2 : filterC d c (Matcher.sel s) =
        c.filter (fun it => hasMatches d it && matchesSel d (idOf it) s) :=
      filterIdxAux_const_eq_filter
        (fun it => hasMatches d it && matchesSel d (idOf it) s) c c 0
    rw [e1, e2, List.mem_filter, List.mem_filter]
    cases hb : matchesSel d (idOf x) s <;> simp [hx, hm, hb]
  · have e1 : notC d c (Matcher.sel s) =
        c.filter (fun it => hasMatches d it && !matchesSel d (idOf it) s) :=
      filterIdxAux_const_eq_filter
        (fun it => hasMatches d it && !matchesSel d (idOf it) s) c c 0
    have e2 : filterC d c (Matcher.sel s) =
        c.filter (fun it => hasMatches d it && matchesSel d (idOf it) s) :=
      filterIdxAux_const_eq_filter
        (fun it => hasMatches d it && matchesSel d (idOf it) s) c c 0
    rw [e1, e2]
    constructor <;> rw [List.mem_filter] <;> simp [hm]
  · constructor
    · intro h1 h2
      exact mem_filterIdxAux_not_both f c c 0 x hnd h2 h1
    · intro h2
      rcases mem_filterIdxAux_cover f c c 0 x hx with hm | hm
      · exact absurd hm h2
      · exact hm

/-- Witness for claim C6: concrete negation instances for an element
member — kept by not exactly when dropped by filter. -/
theorem C6_not_negates_filter_witness :
    (Item.node 10 ∈ notC domCtx [Item.node 10] (Matcher.list []) ↔
      Item.node 10 ∉ filterC domCtx [Item.node 10] (Matcher.list [])) ∧
    (Item.node 10 ∈ notC domCtx [Item.node 10] (Matcher.sel "div") ↔
      Item.node 10 ∉ filterC domCtx [Item.node 10] (Matcher.sel "div")) :=
  ⟨(C6_not_negates_filter domCtx [Item.node 10] (Item.node 10)).1 []
      (by decide),
   (C6_not_negates_filter domCtx [Item.node 10] (Item.node 10)).2.2.1 "div"
      (by decide) (by decide)⟩

/-- Claim C4 (amended): on an HTML-fragment-shaped selector string the
typed constructor ignores the context argument entirely (any two contexts
give the same result, namely the parse), while the legacy constructor
with a context that is not a Document returns an empty collection; the
dispatch does not fall through to a selector query in either variant. -/
theorem C4_html_with_nondocument_context (d : Dom) (s : String)
    (ctx ctx2 : Sel) (it : Item) (l : List Item) (s2 : String) :
    (isHtmlLike s = true →
      ctorTS d (some (Sel.str s)) ctx = ctorTS d (some (Sel.str s)) ctx2) ∧
    (isHtmlLike s = true → isDocumentLegacy d it = false →
      ctorLegacy d (some (Sel.str s)) (Sel.one it) = ([], d)) ∧
    (isHtmlLike s = true →
      ctorLegacy d (some (Sel.str s)) (Sel.str s2) = ([], d) ∧
      ctorLegacy d (some (Sel.str s)) (Sel.many l) = ([], d)) := by
  refine ⟨fun h => ?_, fun h hd => ?_, fun h => ?_⟩
  · simp [ctorTS, h]
  · simp [ctorLegacy, h, hd]
  · constructor <;> simp [ctorLegacy, h]

/-- Witness for claim C4 (amended): a concrete HTML-shaped string with a
non-document element context. -/
theorem C4_html_with_nondocument_context_witness :
    ctorTS domCtx (some (Sel.str "<p>")) (Sel.one (Item.node 10)) =
      ctorTS domCtx (some (Sel.str "<p>")) (Sel.str "q") ∧
    ctorLegacy domCtx (some (Sel.str "<p>")) (Sel.one (Item.node 10)) =
      ([], domCtx) :=
  ⟨(C4_html_with_nondocument_context domCtx "<p>" (Sel.one (Item.node 10))
      (Sel.str "q") (Item.node 10) [] "q").1 (by decide),
   (C4_html_with_nondocument_context domCtx "<p>" (Sel.one (Item.node 10))
      (Sel.str "q") (Item.node 10) [] "q").2.1 (by decide) (by decide)⟩

/-- The constructor with an explicit context, applied to the context as
selector with the default document context, is exactly the inner
collection the selector branch builds: the dispatch is applied
recursively to the context. -/
theorem ctorTSDoc_eq_ctorTS (d : Dom) (sel : Option Sel) :
    ctorTSDoc d sel = ctorTS d sel (Sel.one (Item.node d.documentId)) := by
  match sel with
  | none => rfl
  | some (.str s) =>
      by_cases h : isHtmlLike s = true <;> simp [ctorTSDoc, ctorTS, h]
  | some (.one it) => rfl
  | some (.many l) => rfl

/-- Claim C3: a constructor string selector shaped like an HTML fragment
is parsed as HTML and the collection holds exactly the parsed fragment
direct child nodes (the body childNodes of the parse); any other string
is treated as a CSS selector and the result equals querying all matching
descendants rooted at every member of the collection built from the
context by the same dispatch (with the default document context). -/
theorem C3_ctor_string_dispatch (d : Dom) (s : String) (ctx : Sel) :
    (isHtmlLike s = true →
      ctorTS d (some (Sel.str s)) ctx =
        ((domParserParseBody d s).1.map Item.node, (domParserParseBody d s).2)) ∧
    (isHtmlLike s = false →
      ctorTS d (some (Sel.str s)) ctx =
        (querySelectorAllC
            (ctorTS d (some ctx) (Sel.one (Item.node d.documentId))).2
            (ctorTS d (some ctx) (Sel.one (Item.node d.documentId))).1 s,
          (ctorTS d (some ctx) (Sel.one (Item.node d.documentId))).2)) := by
  constructor
  · intro h
    simp [ctorTS, h, domParserParseBody, parseHTMLNodes, Dom.alloc, push, isDOMItem]
  · intro h
    rw [← ctorTSDoc_eq_ctorTS]
    simp [ctorTS, h]

/-- Witness for claim C3: both branches at concrete inputs — an
HTML-shaped string parses, a plain selector string queries over the
context collection. -/
theorem C3_ctor_string_dispatch_witness :
    ctorTS domCtx (some (Sel.str "<p>")) (Sel.one (Item.node 10)) =
      ((domParserParseBody domCtx "<p>").1.map Item.node,
        (domParserParseBody domCtx "<p>").2) ∧
    ctorTS domCtx (some (Sel.str "div")) (Sel.one (Item.node 0)) =
      (querySelectorAllC
          (ctorTS domCtx (some (Sel.one (Item.node 0)))
            (Sel.one (Item.node domCtx.documentId))).2
          (ctorTS domCtx (some (Sel.one (Item.node 0)))
            (Sel.one (Item.node domCtx.documentId))).1 "div",
        (ctorTS domCtx (some (Sel.one (Item.node 0)))
          (Sel.one (Item.node domCtx.documentId))).2) :=
  ⟨(C3_ctor_string_dispatch domCtx "<p>" (Sel.one (Item.node 10))).1 (by decide),
   (C3_ctor_string_dispatch domCtx "div" (Sel.one (Item.node 0))).2 (by decide)⟩

/-- Folding list appends equals flattening the per-item lists. -/
theorem foldl_append_eq_flatten (g : Item → List Effect) :
    ∀ (l : List Item) (a : List Effect),
      l.foldl (fun acc it => acc ++ g it) a = a ++ (l.map g).flatten := by
  intro l
  induction l with
  | nil => intro a; simp
  | cons it rest ih => intro a; simp [ih, List.append_assoc]

/-- The effect trace of ready is the flattening of one effect list per
member: a DOMContentLoaded registration for a loading document, a
setTimeout scheduling otherwise, nothing for a member without a
readyState. -/
theorem readyC_trace (d : Dom) (c : List Item) :
    (readyC d c).2 = (c.map (fun it =>
      if hasReadyState d it then
        if readyStateOf d it == "loading" then
          [Effect.addListener it "DOMContentLoaded"]
        else [Effect.scheduleTimeout]
      else [])).flatten := by
  have hbody : (fun (acc : List Effect) it =>
      if hasReadyState d it then
        if readyStateOf d it == "loading" then
          acc ++ [Effect.addListener it "DOMContentLoaded"]
        else acc ++ [Effect.scheduleTimeout]
      else acc) =
    fun acc it => acc ++
      (if hasReadyState d it then
        if readyStateOf d it == "loading" then
          [Effect.addListener it "DOMContentLoaded"]
        else [Effect.scheduleTimeout]
      else []) := by
    funext acc it
    by_cases h1 : hasReadyState d it = true
    · by_cases h2 : (readyStateOf d it == "loading") = true <;> simp [h1, h2]
    · simp [Bool.of_not_eq_true h1]
  show c.foldl _ [] = _
  rw [hbody, foldl_append_eq_flatten]
  simp

/-- Claim C9: ready never invokes the listener synchronously within the
registering call — the effect trace contains no synchronous invocation;
for every document-capable member the listener is registered for the
one-time DOMContentLoaded event when the document is still loading, and
otherwise is scheduled (setTimeout) for a future turn of the event
loop. -/
theorem C9_ready_never_synchronous (d : Dom) (c : List Item) :
    (readyC d c).1 = c ∧
    Effect.invokeNow ∉ (readyC d c).2 ∧
    ∀ it, it ∈ c → hasReadyState d it = true →
      (readyStateOf d it = "loading" →
        Effect.addListener it "DOMContentLoaded" ∈ (readyC d c).2) ∧
      (¬readyStateOf d it = "loading" →
        Effect.scheduleTimeout ∈ (readyC d c).2) := by
  refine ⟨rfl, ?_, ?_⟩
  · rw [readyC_trace]
    intro hmem
    rw [List.mem_flatten] at hmem
    rcases hmem with ⟨l, hl, hin⟩
    rw [List.mem_map] at hl
    rcases hl with ⟨it, _, rfl⟩
    by_cases h1 : hasReadyState d it = true
    · by_cases h2 : (readyStateOf d it == "loading") = true <;>
        simp [h1, h2] at hin
    · simp [Bool.of_not_eq_true h1] at hin
  · intro it hit hcap
    constructor
    · intro hload
      rw [readyC_trace, List.mem_flatten]
      refine ⟨[Effect.addListener it "DOMContentLoaded"], ?_, by simp⟩
      rw [List.mem_map]
      exact ⟨it, hit, by simp [hcap, hload]⟩
    · intro hload
      rw [readyC_trace, List.mem_flatten]
      refine ⟨[Effect.scheduleTimeout], ?_, by simp⟩
      rw [List.mem_map]
      refine ⟨it, hit, ?_⟩
      have : (readyStateOf d it == "loading") = false := by
        simp [hload]
      simp [hcap, this]

/-- Witness for claim C9: on a loading document and a complete document,
ready emits one registration and one scheduling and no synchronous
invocation. -/
theorem C9_ready_never_synchronous_witness :
    Effect.invokeNow ∉ (readyC domReady [Item.node 0, Item.node 1]).2 ∧
    Effect.addListener (Item.node 0) "DOMContentLoaded" ∈
      (readyC domReady [Item.node 0, Item.node 1]).2 ∧
    Effect.scheduleTimeout ∈ (readyC domReady [Item.node 0, Item.node 1]).2 :=
  ⟨(C9_ready_never_synchronous domReady [Item.node 0, Item.node 1]).2.1,
   ((C9_ready_never_synchronous domReady [Item.node 0, Item.node 1]).2.2
      (Item.node 0) (by decide) (by decide)).1 (by decide),
   ((C9_ready_never_synchronous domReady [Item.node 0, Item.node 1]).2.2
      (Item.node 1) (by decide) (by decide)).2 (by decide)⟩

/-- Reading through a single-id rewrite of the store. -/
theorem storeGet_map_set (s : List (Nat × NodeData)) (j : Nat)
    (f : NodeData → NodeData) (i : Nat) :
    storeGet (s.map (fun p => if p.fst == j then (j, f p.snd) else p)) i =
      if i = j then (storeGet s i).map f else storeGet s i := by
  induction s with
  | nil => by_cases h : i = j <;> simp [storeGet, h]
  | cons p rest ih =>
    simp only [beq_iff_eq] at ih ⊢
    by_cases hpj : p.fst = j
    · by_cases hij : i = j
      · subst hij
        simp [storeGet, hpj]
      · have hpi : ¬p.fst = i := fun hc => hij (by rw [← hc, hpj])
        have hji : ¬j = i := fun hc => hij hc.symm
        simp [storeGet, hpj, hij, hpi, hji, ih]
    · by_cases hpi : p.fst = i
      · have hij : ¬i = j := fun hc => hpj (by rw [hpi, hc])
        simp [storeGet, hpj, hpi, hij]
      · simp [storeGet, hpj, hpi, ih]

/-- Reading any id through a modify. -/
theorem Dom.get_modify (d : Dom) (j : Nat) (f : NodeData → NodeData) (i : Nat) :
    (d.modify j f).get i = if i = j then (d.get i).map f else d.get i :=
  storeGet_map_set d.store j f i

/-- An id already present reads the same after an entry is appended. -/
theorem storeGet_append_of_isSome (s : List (Nat × NodeData))
    (x : Nat × NodeData) (i : Nat) (h : (storeGet s i).isSome = true) :
    storeGet (s ++ [x]) i = storeGet s i := by
  induction s with
  | nil => simp [storeGet] at h
  | cons p rest ih =>
    by_cases hpi : p.fst = i
    · simp [storeGet, hpi]
    · simp only [storeGet, List.cons_append, hpi, if_false] at h ⊢
      exact ih h

/-- An id already present reads the same after an allocation. -/
theorem Dom.get_alloc_of_isSome (d : Dom) (nd : NodeData) (i : Nat)
    (h : (d.get i).isSome = true) :
    (d.alloc nd).2.get i = d.get i :=
  storeGet_append_of_isSome d.store (d.nextId, nd) i h

/-- A field projection unaffected by the rewrite function reads the same
through a modify. -/
theorem get_map_modify {α : Type} (g : NodeData → α) (d : Dom) (j : Nat)
    (f : NodeData → NodeData) (i : Nat) (hf : ∀ nd, g (f nd) = g nd) :
    ((d.modify j f).get i).map g = (d.get i).map g := by
  rw [Dom.get_modify]
  by_cases h : i = j
  · simp only [h, if_true]
    cases d.get j <;> simp [hf]
  · simp [h]

/-- Presence of an id is preserved by modify. -/
theorem get_isSome_modify (d : Dom) (j : Nat) (f : NodeData → NodeData) (i : Nat) :
    ((d.modify j f).get i).isSome = ((d.get i)).isSome := by
  rw [Dom.get_modify]
  by_cases h : i = j
  · simp only [h, if_true]
    cases d.get j <;> simp
  · simp [h]

/-- A field projection unaffected by the rewrite function reads the same
through a fold of modifies. -/
theorem get_map_foldl_modify {α : Type} (g : NodeData → α)
    (f : NodeData → NodeData) (hf : ∀ nd, g (f nd) = g nd) :
    ∀ (l : List Nat) (d : Dom) (i : Nat),
      ((l.foldl (fun da k => da.modify k f) d).get i).map g = (d.get i).map g := by
  intro l
  induction l with
  | nil => intro d i; rfl
  | cons k rest ih =>
    intro d i
    rw [List.foldl_cons, ih, get_map_modify g d k f i hf]

/-- Presence of an id is preserved by a fold of modifies. -/
theorem get_isSome_foldl_modify (f : NodeData → NodeData) :
    ∀ (l : List Nat) (d : Dom) (i : Nat),
      ((l.foldl (fun da k => da.modify k f) d).get i).isSome =
        ((d.get i)).isSome := by
  intro l
  induction l with
  | nil => intro d i; rfl
  | cons k rest ih =>
    intro d i
    rw [List.foldl_cons, ih, get_isSome_modify]

/-- Writing a key into the association store makes that key read the
written value. -/
theorem lookupAssoc_setAssoc (a : List (String × String)) (k v : String) :
    lookupAssoc (setAssoc a k v) k = some v := by
  induction a with
  | nil => simp [setAssoc, lookupAssoc]
  | cons p rest ih =>
    by_cases h : p.fst = k <;> simp [setAssoc, lookupAssoc, h, ih]

/-- A value established for a member is preserved through a guarded
forEach of setter steps, provided each step preserves it. -/
theorem foldl_guard_preserve (step : Dom → Item → Dom)
    (elig : Dom → Item → Bool) (read : Dom → Item → Option String) (v : String)
    (hpres : ∀ dd y j, read dd y = some v → read (step dd j) y = some v) :
    ∀ (l : List Item) (dd : Dom) (y : Item), read dd y = some v →
      read (l.foldl (fun da it => if elig da it then step da it else da) dd) y =
        some v := by
  intro l
  induction l with
  | nil => intro dd y h; exact h
  | cons it rest ih =>
    intro dd y h
    rw [List.foldl_cons]
    by_cases he : elig dd it = true
    · rw [if_pos he]
      exact ih (step dd it) y (hpres dd y it h)
    · rw [if_neg he]
      exact ih dd y h

/-- A guarded forEach of setter steps establishes the written value on
every member that is eligible at entry, provided each step writes the
value on its own item, preserves it elsewhere, and keeps eligibility. -/
theorem foldl_guard_sets (step : Dom → Item → Dom)
    (elig : Dom → Item → Bool) (read : Dom → Item → Option String) (v : String)
    (hset : ∀ dd j, elig dd j = true → read (step dd j) j = some v)
    (hpres : ∀ dd y j, read dd y = some v → read (step dd j) y = some v)
    (helig : ∀ dd y j, elig dd y = true → elig (step dd j) y = true) :
    ∀ (l : List Item) (dd : Dom) (y : Item), y ∈ l → elig dd y = true →
      read (l.foldl (fun da it => if elig da it then step da it else da) dd) y =
        some v := by
  intro l
  induction l with
  | nil => intro dd y h; simp at h
  | cons it rest ih =>
    intro dd y hmem hel
    rw [List.foldl_cons]
    rcases List.mem_cons.mp hmem with rfl | hmem
    · rw [if_pos hel]
      exact foldl_guard_preserve step elig read v hpres rest (step dd y) y
        (hset dd y hel)
    · by_cases he : elig dd it = true
      · rw [if_pos he]
        exact ih (step dd it) y hmem (helig dd y it hel)
      · rw [if_neg he]
        exact ih dd y hmem hel

/-- Setting an attribute on one node makes that attribute read the value
on that node and disturbs no established reads of the same attribute. -/
theorem getAttribute_setAttribute_pres (d : Dom) (jid yid : Nat) (n v : String)
    (h : getAttribute d yid n = some v) :
    getAttribute (setAttribute d jid n v) yid n = some v := by
  unfold getAttribute setAttribute at *
  rw [Dom.get_modify]
  by_cases hij : yid = jid
  · subst hij
    cases hg : d.get yid with
    | none => rw [hg] at h; simp at h
    | some nd => simp [hg, lookupAssoc_setAssoc]
  · rw [if_neg hij]
    exact h

theorem getAttribute_setAttribute_self (d : Dom) (jid : Nat) (n v : String)
    (h : (d.get jid).isSome = true) :
    getAttribute (setAttribute d jid n v) jid n = some v := by
  unfold getAttribute setAttribute
  rw [Dom.get_modify, if_pos rfl]
  rcases Option.isSome_iff_exists.mp h with ⟨nd, hnd⟩
  simp [hnd, lookupAssoc_setAssoc]

/-- Node types are unchanged by a modify whose rewrite keeps them. -/
theorem nodeTypeOf_modify (d : Dom) (j : Nat) (f : NodeData → NodeData)
    (it : Item) (hf : ∀ nd, (f nd).nodeType = nd.nodeType) :
    nodeTypeOf (d.modify j f) it = nodeTypeOf d it := by
  cases it with
  | node i =>
      show ((d.modify j f).get i).map _ = (d.get i).map _
      exact get_map_modify _ d j f i hf
  | window => rfl
  | plain k => rfl

/-- Node types of present nodes are unchanged by an allocation. -/
theorem nodeTypeOf_alloc (d : Dom) (nd : NodeData) (it : Item)
    (h : (nodeTypeOf d it).isSome = true) :
    nodeTypeOf (d.alloc nd).2 it = nodeTypeOf d it := by
  cases it with
  | node i =>
      have hi : (d.get i).isSome = true := by
        rcases Option.isSome_iff_exists.mp h with ⟨t, ht⟩
        cases hg : d.get i with
        | none =>
            exfalso
            have : nodeTypeOf d (Item.node i) = none := by
              show (d.get i).map _ = none
              rw [hg]; rfl
            rw [this] at ht; cases ht
        | some x => rfl
      show ((d.alloc nd).2.get i).map _ = (d.get i).map _
      rw [Dom.get_alloc_of_isSome d nd i hi]
  | window => rfl
  | plain k => rfl

/-- Node types of present nodes are unchanged by a fold of modifies whose
rewrite keeps them. -/
theorem nodeTypeOf_foldl_modify (f : NodeData → NodeData)
    (hf : ∀ nd, (f nd).nodeType = nd.nodeType) :
    ∀ (l : List Nat) (d : Dom) (it : Item),
      nodeTypeOf (l.foldl (fun da k => da.modify k f) d) it = nodeTypeOf d it := by
  intro l
  induction l with
  | nil => intro d it; rfl
  | cons k rest ih =>
    intro d it
    rw [List.foldl_cons, ih, nodeTypeOf_modify _ _ _ _ hf]

/-- Writing a dataset key on one node makes that key read the value on
that node and disturbs no established reads of the same key. -/
theorem getDataset_setDataset_pres (d : Dom) (jid yid : Nat) (k v : String)
    (h : getDataset d yid k = some v) :
    getDataset (setDataset d jid k v) yid k = some v := by
  unfold getDataset setDataset at *
  rw [Dom.get_modify]
  by_cases hij : yid = jid
  · subst hij
    cases hg : d.get yid with
    | none => rw [hg] at h; simp at h
    | some nd => simp [hg, lookupAssoc_setAssoc]
  · rw [if_neg hij]
    exact h

theorem getDataset_setDataset_self (d : Dom) (jid : Nat) (k v : String)
    (h : (d.get jid).isSome = true) :
    getDataset (setDataset d jid k v) jid k = some v := by
  unfold getDataset setDataset
  rw [Dom.get_modify, if_pos rfl]
  rcases Option.isSome_iff_exists.mp h with ⟨nd, hnd⟩
  simp [hnd, lookupAssoc_setAssoc]

/-- Writing textContent on one node makes it read the value there and
disturbs no established textContent reads. -/
theorem textOf_setTextContent_pres (d : Dom) (jid yid : Nat) (v : String)
    (h : textOf d yid = some v) :
    textOf (setTextContent d jid v) yid = some v := by
  unfold textOf setTextContent at *
  rw [Dom.get_modify]
  by_cases hij : yid = jid
  · subst hij
    cases hg : d.get yid with
    | none => rw [hg] at h; simp at h
    | some nd => simp [hg]
  · rw [if_neg hij]
    exact h

theorem textOf_setTextContent_self (d : Dom) (jid : Nat) (v : String)
    (h : (d.get jid).isSome = true) :
    textOf (setTextContent d jid v) jid = some v := by
  unfold textOf setTextContent
  rw [Dom.get_modify, if_pos rfl]
  rcases Option.isSome_iff_exists.mp h with ⟨nd, hnd⟩
  simp [hnd]

/-- The innerHTML setter, written as an explicit composite: orphan the old
children, allocate the parse node, reparent it, then rewrite the target
node. -/
theorem setInnerHTML_eq (d : Dom) (j : Nat) (v : String) :
    setInnerHTML d j v =
      ((((childIdsOf d j).foldl
            (fun da k => da.modify k (fun nd => { nd with parentId := none }))
            d).alloc
          { nodeType := 1, tag := "parsed", text := v, innerHTMLv := v }).2.modify
          ((childIdsOf d j).foldl
            (fun da k => da.modify k (fun nd => { nd with parentId := none }))
            d).nextId
          (fun nd => { nd with parentId := some j })).modify j
        (fun nd => { nd with
          innerHTMLv := v,
          childIds := [((childIdsOf d j).foldl
            (fun da k => da.modify k (fun nd => { nd with parentId := none }))
            d).nextId] }) :=
  rfl

/-- An innerHTML value is unchanged by a modify whose rewrite keeps it. -/
theorem innerHTMLOf_modify_keep (d : Dom) (j : Nat) (f : NodeData → NodeData)
    (i : Nat) (hf : ∀ nd, (f nd).innerHTMLv = nd.innerHTMLv) :
    innerHTMLOf (d.modify j f) i = innerHTMLOf d i :=
  get_map_modify _ d j f i hf

/-- Setting innerHTML on a present node makes it read the value there. -/
theorem innerHTMLOf_setInnerHTML_self (d : Dom) (j : Nat) (v : String)
    (h : (d.get j).isSome = true) :
    innerHTMLOf (setInnerHTML d j v) j = some v := by
  rw [setInnerHTML_eq]
  have h0 : ((((childIdsOf d j).foldl
      (fun da k => da.modify k (fun nd => { nd with parentId := none }))
      d)).get j).isSome = true := by
    rw [get_isSome_foldl_modify]
    exact h
  have h1 : (((((childIdsOf d j).foldl
      (fun da k => da.modify k (fun nd => { nd with parentId := none }))
      d).alloc
        { nodeType := 1, tag := "parsed", text := v, innerHTMLv := v }).2).get
      j).isSome = true := by
    rw [Dom.get_alloc_of_isSome _ _ _ h0]
    exact h0
  have h2 : ((((((childIdsOf d j).foldl
      (fun da k => da.modify k (fun nd => { nd with parentId := none }))
      d).alloc
        { nodeType := 1, tag := "parsed", text := v, innerHTMLv := v }).2.modify
      ((childIdsOf d j).foldl
        (fun da k => da.modify k (fun nd => { nd with parentId := none }))
        d).nextId
      (fun nd => { nd with parentId := some j })).get j)).isSome = true := by
    rw [get_isSome_modify]
    exact h1
  show (Dom.get _ j).map _ = some v
  rw [Dom.get_modify, if_pos rfl]
  rcases Option.isSome_iff_exists.mp h2 with ⟨nd2, hnd2⟩
  rw [hnd2]
  rfl

/-- Setting innerHTML on one node leaves the innerHTML of every other
present node unchanged. -/
theorem innerHTMLOf_setInnerHTML_other (d : Dom) (j yid : Nat) (v : String)
    (hne : ¬yid = j) (hs : (d.get yid).isSome = true) :
    innerHTMLOf (setInnerHTML d j v) yid = innerHTMLOf d yid := by
  rw [setInnerHTML_eq]
  have h0 : ((((childIdsOf d j).foldl
      (fun da k => da.modify k (fun nd => { nd with parentId := none }))
      d)).get yid).isSome = true := by
    rw [get_isSome_foldl_modify]
    exact hs
  show (Dom.get _ yid).map _ = _
  rw [Dom.get_modify, if_neg hne]
  have e2 : innerHTMLOf ((((childIdsOf d j).foldl
      (fun da k => da.modify k (fun nd => { nd with parentId := none }))
      d).alloc
        { nodeType := 1, tag := "parsed", text := v, innerHTMLv := v }).2.modify
      ((childIdsOf d j).foldl
        (fun da k => da.modify k (fun nd => { nd with parentId := none }))
        d).nextId
      (fun nd => { nd with parentId := some j })) yid =
      innerHTMLOf d yid := by
    rw [innerHTMLOf_modify_keep _ _
      (fun nd => { nd with parentId := some j }) _ (fun nd => rfl)]
    show (Dom.get _ yid).map _ = _
    rw [Dom.get_alloc_of_isSome _ _ _ h0]
    exact get_map_foldl_modify (·.innerHTMLv)
      (fun nd => { nd with parentId := none }) (fun nd => rfl) _ d yid
  exact e2

/-- Node types of present nodes are unchanged by the innerHTML setter. -/
theorem nodeTypeOf_setInnerHTML (d : Dom) (j : Nat) (v : String) (it : Item)
    (h : (nodeTypeOf d it).isSome = true) :
    nodeTypeOf (setInnerHTML d j v) it = nodeTypeOf d it := by
  rw [setInnerHTML_eq]
  have e0 : nodeTypeOf ((childIdsOf d j).foldl
      (fun da k => da.modify k (fun nd => { nd with parentId := none })) d) it =
      nodeTypeOf d it :=
    nodeTypeOf_foldl_modify (fun nd => { nd with parentId := none })
      (fun nd => rfl) _ d it
  have e1 : nodeTypeOf ((((childIdsOf d j).foldl
      (fun da k => da.modify k (fun nd => { nd with parentId := none }))
      d).alloc
        { nodeType := 1, tag := "parsed", text := v, innerHTMLv := v }).2) it =
      nodeTypeOf d it := by
    rw [nodeTypeOf_alloc _ _ _ (by rw [e0]; exact h), e0]
  rw [nodeTypeOf_modify _ j (fun nd => { nd with
      innerHTMLv := v,
      childIds := [((childIdsOf d j).foldl
        (fun da k => da.modify k (fun nd => { nd with parentId := none }))
        d).nextId] }) it (fun nd => rfl),
    nodeTypeOf_modify _ _ (fun nd => { nd with parentId := some j }) it
      (fun nd => rfl), e1]

/-- A known node type implies the node is present in the store. -/
theorem isSome_get_of_nodeTypeOf (d : Dom) (it : Item)
    (h : (nodeTypeOf d it).isSome = true) :
    (d.get (idOf it)).isSome = true := by
  cases it with
  | node i =>
      have : ((d.get i).map (·.nodeType)).isSome = true := h
      cases hg : d.get i with
      | none => rw [hg] at this; simp at this
      | some nd => show (d.get i).isSome = true; rw [hg]; rfl
  | window => simp [nodeTypeOf] at h
  | plain k => simp [nodeTypeOf] at h

/-- The short-circuiting attr get loop consults exactly the first
capable member. -/
theorem attrGetLoop_eq_firstSpec (d : Dom) (n : String) :
    ∀ c : List Item, attrGetLoop d n c = attrFirstSpec d c n := by
  intro c
  induction c with
  | nil => rfl
  | cons it rest ih =>
    simp only [attrGetLoop, attrFirstSpec]
    by_cases h : hasGetAttribute d it = true
    · rw [if_pos h, List.find?_cons_of_pos _ h]
    · rw [if_neg h, List.find?_cons_of_neg _ (by simp [h])]
      show attrGetLoop d n rest = attrFirstSpec d rest n
      exact ih

/-- The short-circuiting html get loop consults exactly the first
capable member. -/
theorem htmlGetLoop_eq_firstSpec (d : Dom) :
    ∀ c : List Item, htmlGetLoop d c = htmlFirstSpec d c := by
  intro c
  induction c with
  | nil => rfl
  | cons it rest ih =>
    simp only [htmlGetLoop, htmlFirstSpec]
    by_cases h : hasInnerHTML d it = true
    · rw [if_pos h, List.find?_cons_of_pos _ h]
    · rw [if_neg h, List.find?_cons_of_neg _ (by simp [h])]
      show htmlGetLoop d rest = htmlFirstSpec d rest
      exact ih

/-- The short-circuiting text get loop consults exactly the first
capable member. -/
theorem textGetLoop_eq_firstSpec (d : Dom) :
    ∀ c : List Item, textGetLoop d c = textFirstSpec d c := by
  intro c
  induction c with
  | nil => rfl
  | cons it rest ih =>
    simp only [textGetLoop, textFirstSpec]
    by_cases h : hasTextContent d it = true
    · rw [if_pos h, List.find?_cons_of_pos _ h]
    · rw [if_neg h, List.find?_cons_of_neg _ (by simp [h])]
      show textGetLoop d rest = textFirstSpec d rest
      exact ih

/-- The short-circuiting keyed data get loop consults exactly the first
capable member. -/
theorem dataGetLoop_eq_firstSpec (d : Dom) (k : String) :
    ∀ c : List Item, dataGetLoop d k c = dataFirstSpec d c k := by
  intro c
  induction c with
  | nil => rfl
  | cons it rest ih =>
    simp only [dataGetLoop, dataFirstSpec]
    by_cases h : hasDataset d it = true
    · rw [if_pos h, List.find?_cons_of_pos _ h]
    · rw [if_neg h, List.find?_cons_of_neg _ (by simp [h])]
      show dataGetLoop d k rest = dataFirstSpec d rest k
      exact ih

/-- Claim C7: each get-or-set accessor (attr, html, text, data) applies
the set operation to every eligible member and returns the receiver when
a value is supplied; with no value it returns the accessor value of the
first eligible member only — later members are not consulted — or the
documented sentinel (null for attr and text, the empty string for html,
undefined for data) when no member is eligible. -/
theorem C7_get_or_set_accessors (d : Dom) (c : List Item) (n k v : String)
    (x : Item) :
    ((attrC d c n (some v)).1 = GetSet.coll c ∧
      (x ∈ c → hasSetAttribute d x = true →
        getAttribute (attrC d c n (some v)).2 (idOf x) n = some v)) ∧
    attrC d c n none = (attrFirstSpec d c n, d) ∧
    ((htmlC d c (some v)).1 = GetSet.coll c ∧
      (x ∈ c → hasInnerHTML d x = true →
        innerHTMLOf (htmlC d c (some v)).2 (idOf x) = some v)) ∧
    htmlC d c none = (htmlFirstSpec d c, d) ∧
    ((textC d c (some v)).1 = GetSet.coll c ∧
      (x ∈ c → hasTextContent d x = true →
        textOf (textC d c (some v)).2 (idOf x) = some v)) ∧
    textC d c none = (textFirstSpec d c, d) ∧
    ((dataC d c k (some v)).1 = GetSet.coll c ∧
      (x ∈ c → hasDataset d x = true →
        getDataset (dataC d c k (some v)).2 (idOf x) (camelizeKey k) = some v)) ∧
    dataC d c k none = (dataFirstSpec d c (camelizeKey k), d) := by
  refine ⟨⟨rfl, fun hm he => ?_⟩, ?_, ⟨rfl, fun hm he => ?_⟩, ?_,
    ⟨rfl, fun hm he => ?_⟩, ?_, ⟨rfl, fun hm he => ?_⟩, ?_⟩
  · refine foldl_guard_sets (fun dd it => setAttribute dd (idOf it) n v)
      hasSetAttribute (fun dd y => getAttribute dd (idOf y) n) v ?_ ?_ ?_
      c d x hm he
    · intro dd j hj
      exact getAttribute_setAttribute_self dd (idOf j) n v
        (isSome_get_of_nodeTypeOf dd j (by rw [eq_of_beq hj]; rfl))
    · intro dd y j hr
      exact getAttribute_setAttribute_pres dd (idOf j) (idOf y) n v hr
    · intro dd y j hy
      show (nodeTypeOf (setAttribute dd (idOf j) n v) y == some 1) = true
      rw [show setAttribute dd (idOf j) n v = dd.modify (idOf j)
          (fun nd => { nd with attrs := setAssoc nd.attrs n v }) from rfl,
        nodeTypeOf_modify dd (idOf j)
          (fun nd => { nd with attrs := setAssoc nd.attrs n v }) y
          (fun nd => rfl)]
      exact hy
  · show (attrGetLoop d n c, d) = _
    rw [attrGetLoop_eq_firstSpec]
  · refine foldl_guard_sets (fun dd it => setInnerHTML dd (idOf it) v)
      hasInnerHTML (fun dd y => innerHTMLOf dd (idOf y)) v ?_ ?_ ?_
      c d x hm he
    · intro dd j hj
      exact innerHTMLOf_setInnerHTML_self dd (idOf j) v
        (isSome_get_of_nodeTypeOf dd j (by rw [eq_of_beq hj]; rfl))
    · intro dd y j hr
      replace hr : innerHTMLOf dd (idOf y) = some v := hr
      show innerHTMLOf (setInnerHTML dd (idOf j) v) (idOf y) = some v
      have hys : (dd.get (idOf y)).isSome = true := by
        cases hg : dd.get (idOf y) with
        | none =>
            unfold innerHTMLOf at hr
            rw [hg] at hr
            simp at hr
        | some nd => rfl
      by_cases hij : idOf y = idOf j
      · rw [hij] at hr hys ⊢
        exact innerHTMLOf_setInnerHTML_self dd (idOf j) v hys
      · rw [innerHTMLOf_setInnerHTML_other dd (idOf j) (idOf y) v hij hys]
        exact hr
    · intro dd y j hy
      show (nodeTypeOf (setInnerHTML dd (idOf j) v) y == some 1) = true
      rw [nodeTypeOf_setInnerHTML dd (idOf j) v y (by rw [eq_of_beq hy]; rfl)]
      exact hy
  · show (htmlGetLoop d c, d) = _
    rw [htmlGetLoop_eq_firstSpec]
  · refine foldl_guard_sets (fun dd it => setTextContent dd (idOf it) v)
      hasTextContent (fun dd y => textOf dd (idOf y)) v ?_ ?_ ?_
      c d x hm he
    · intro dd j hj
      exact textOf_setTextContent_self dd (idOf j) v
        (isSome_get_of_nodeTypeOf dd j hj)
    · intro dd y j hr
      exact textOf_setTextContent_pres dd (idOf j) (idOf y) v hr
    · intro dd y j hy
      show ((nodeTypeOf (setTextContent dd (idOf j) v) y).isSome = true)
      rw [show setTextContent dd (idOf j) v = dd.modify (idOf j)
          (fun nd => { nd with text := v, childIds := [] }) from rfl,
        nodeTypeOf_modify dd (idOf j)
          (fun nd => { nd with text := v, childIds := [] }) y
          (fun nd => rfl)]
      exact hy
  · show (textGetLoop d c, d) = _
    rw [textGetLoop_eq_firstSpec]
  · refine foldl_guard_sets
      (fun dd it => setDataset dd (idOf it) (camelizeKey k) v)
      hasDataset (fun dd y => getDataset dd (idOf y) (camelizeKey k)) v ?_ ?_ ?_
      c d x hm he
    · intro dd j hj
      exact getDataset_setDataset_self dd (idOf j) (camelizeKey k) v
        (isSome_get_of_nodeTypeOf dd j (by rw [eq_of_beq hj]; rfl))
    · intro dd y j hr
      exact getDataset_setDataset_pres dd (idOf j) (idOf y) (camelizeKey k) v hr
    · intro dd y j hy
      show (nodeTypeOf (setDataset dd (idOf j) (camelizeKey k) v) y ==
        some 1) = true
      rw [show setDataset dd (idOf j) (camelizeKey k) v = dd.modify (idOf j)
          (fun nd => { nd with
            dataset := setAssoc nd.dataset (camelizeKey k) v }) from rfl,
        nodeTypeOf_modify dd (idOf j)
          (fun nd => { nd with
            dataset := setAssoc nd.dataset (camelizeKey k) v }) y
          (fun nd => rfl)]
      exact hy
  · show (dataGetLoop d (camelizeKey k) c, d) = _
    rw [dataGetLoop_eq_firstSpec]

/-- Witness for claim C7: on three elements with ids a, b, c, the getter
returns a (the first member only) and the setter writes z onto each
member, the first included. -/
theorem C7_get_or_set_accessors_witness :
    (attrC domAttr [Item.node 0, Item.node 1, Item.node 2] "id" none).1 =
      GetSet.strv "a" ∧
    getAttribute
      (attrC domAttr [Item.node 0, Item.node 1, Item.node 2] "id"
        (some "z")).2 0 "id" = some "z" ∧
    getAttribute
      (attrC domAttr [Item.node 0, Item.node 1, Item.node 2] "id"
        (some "z")).2 2 "id" = some "z" ∧
    (attrC domAttr [Item.node 0, Item.node 1, Item.node 2] "id" (some "z")).1 =
      GetSet.coll [Item.node 0, Item.node 1, Item.node 2] :=
  ⟨by decide,
   (C7_get_or_set_accessors domAttr [Item.node 0, Item.node 1, Item.node 2]
      "id" "k" "z" (Item.node 0)).1.2 (by decide) (by decide),
   (C7_get_or_set_accessors domAttr [Item.node 0, Item.node 1, Item.node 2]
      "id" "k" "z" (Item.node 2)).1.2 (by decide) (by decide),
   (C7_get_or_set_accessors domAttr [Item.node 0, Item.node 1, Item.node 2]
      "id" "k" "z" (Item.node 0)).1.1⟩

end EagleJS
